import Mathlib

/-!
# example-clients: compressor and simple-gain JACK clients

A shallow embedding of the two JACK clients of the repository,
`jack-ncurses-compressor-filter.c` (namespaces `Compressor` and `Compressor32`) and
`simple_gain.c` (namespace `SimpleGain`).

Modelling conventions.

* The global variables of each program are the fields of a `State` record;
  every function that reads or writes globals takes and returns the record.
* The C type `float` has two readings.
  - In `Compressor` and `SimpleGain` it is exact arithmetic in a linear ordered field
    `α`; the literals `1.0f`, `0.0f`, `10.0f`, `20.0f` are written `1`, `0`, `10`, `20`,
    and `0.05f` and `0.1f` keep their decimal form. This reading carries the properties
    of the clamp, of the ratio floor, of the level meter and of the simple gain, which
    rest on comparisons, maxima and single steps.
  - In `Compressor32` it is IEEE 754 binary32, the type `F32`: NaN, the two infinities
    and the finite values; every arithmetic operation is the exact rational operation
    followed by rounding to nearest, ties to even, with overflow to an infinity and
    gradual underflow (each operation is rounded on its own, as with
    `FLT_EVAL_METHOD` 0). The two zeros are one value, so a quotient by zero takes the
    sign of its numerator; the only divisor in the program is `compressorRatio`. This
    reading carries the properties that depend on rounding, overflow or NaN.
* `powf`, `log10f` and `pow` come from the C library, not from the repository, and
  are parameters of the definitions. What a theorem needs of them is a hypothesis on
  the parameter; `powfPiecewise` and `log10fPiecewise` are stand-ins used where a
  hypothesis has to be met by a concrete function.
* `getch()` is the parameter `keystroke : Int` of one loop iteration; `ERR`
  and the `KEY_*` codes are the curses constants.
* The audio buffer of one callback is a `List` whose length is `nframes`.
-/

/-- A value of the C type `float` (IEEE 754 binary32): NaN, an infinity, or a finite
value held as the rational number it denotes. The two zeros are one value. -/
inductive F32 where
  | nan : F32
  | inf (negative : Bool) : F32
  | fin (q : ℚ) : F32

namespace F32

/-- Nearest integer, ties to the even one. -/
def roundTiesEven (x : ℚ) : ℤ :=
  if x - ⌊x⌋ < 1 / 2 then ⌊x⌋
  else if 1 / 2 < x - ⌊x⌋ then ⌊x⌋ + 1
  else if ⌊x⌋ % 2 = 0 then ⌊x⌋
  else ⌊x⌋ + 1

/-- Binary exponent of the binade of `q`, not below the exponent -126 of the
subnormal numbers. -/
def exponent (q : ℚ) : ℤ :=
  max (Int.log 2 |q|) (-126)

/-- The multiple of the unit in the last place of the binade of `q` that is nearest
to `q`, ties to the even multiple. -/
def roundValue (q : ℚ) : ℚ :=
  roundTiesEven (q / 2 ^ (exponent q - 23)) * 2 ^ (exponent q - 23)

/-- Rounding of an exact result to binary32: to nearest, ties to even; a result
that reaches 2^128 overflows to the infinity of its sign. -/
def round32 (q : ℚ) : F32 :=
  if 2 ^ 128 ≤ |roundValue q| then inf (decide (q < 0)) else fin (roundValue q)

/-- Unary minus. -/
def neg : F32 → F32
  | nan => nan
  | inf s => inf (!s)
  | fin q => fin (-q)

/-- The C function `fabs`. -/
def fabs : F32 → F32
  | nan => nan
  | inf _ => inf false
  | fin q => fin |q|

/-- The C operator `+` on `float`: the exact sum, rounded; `inf + -inf` is NaN. -/
def add : F32 → F32 → F32
  | nan, _ => nan
  | _, nan => nan
  | inf s, inf t => if s = t then inf s else nan
  | inf s, fin _ => inf s
  | fin _, inf t => inf t
  | fin a, fin b => round32 (a + b)

/-- The C operator `-` on `float`. -/
def sub (a b : F32) : F32 := add a (neg b)

/-- The C operator `*` on `float`: the exact product, rounded; `0 * inf` is NaN. -/
def mul : F32 → F32 → F32
  | nan, _ => nan
  | _, nan => nan
  | inf s, inf t => inf (xor s t)
  | inf s, fin b => if b = 0 then nan else inf (xor s (decide (b < 0)))
  | fin a, inf t => if a = 0 then nan else inf (xor (decide (a < 0)) t)
  | fin a, fin b => round32 (a * b)

/-- The C operator `/` on `float`: the exact quotient, rounded; `0 / 0` and `inf / inf`
are NaN, and a nonzero value over zero is the infinity of the sign of the numerator
(the divisor zero is taken as `+0`). -/
def div : F32 → F32 → F32
  | nan, _ => nan
  | _, nan => nan
  | inf _, inf _ => nan
  | inf s, fin b => inf (xor s (decide (b < 0)))
  | fin _, inf _ => fin 0
  | fin a, fin b =>
    if b = 0 then (if a = 0 then nan else inf (decide (a < 0))) else round32 (a / b)

/-- The C comparison `a < b`: false when either side is NaN. -/
def lt : F32 → F32 → Bool
  | fin a, fin b => decide (a < b)
  | inf true, fin _ => true
  | inf true, inf false => true
  | fin _, inf false => true
  | _, _ => false

/-- The C comparison `a > b`. -/
def gt (a b : F32) : Bool := lt b a

/-- The order of two binary32 numbers: neither is NaN and `b < a` fails. -/
def le (a b : F32) : Prop :=
  a ≠ nan ∧ b ≠ nan ∧ lt b a = false

end F32

namespace Compressor

/-- Globals of `jack-ncurses-compressor-filter.c` (lines 21-30). -/
structure State (α : Type) where
  makeupGain_dB : α
  makeupGain : α
  compressorThreshold_dB : α
  compressorThreshold : α
  compressorRatio : α
  maxAmplitudeInput : α
  maxAmplitudeOutput : α

variable {α : Type} [LinearOrderedField α]

/-- Initial values of the globals (lines 21-30). -/
def initialState : State α :=
  { makeupGain_dB := 0
    makeupGain := 1
    compressorThreshold_dB := 0
    compressorThreshold := 1
    compressorRatio := 1
    maxAmplitudeInput := 0
    maxAmplitudeOutput := 0 }

/-- Source lines 34-36: `powf(10.0f, 0.05f * dB)`. -/
def linear_from_dB (powf : α → α → α) (dB : α) : α :=
  powf 10 (0.05 * dB)

/-- Source lines 38-40: `20.0f * log10f(linear)`. -/
def dB_from_linear (log10f : α → α) (linear : α) : α :=
  20 * log10f linear

/-- Source lines 42-50. -/
def compress (powf : α → α → α) (log10f : α → α) (s : State α)
    (absoluteValueInput : α) : α :=
  if absoluteValueInput > s.compressorThreshold then
    let absoluteValueInput_dB := dB_from_linear log10f absoluteValueInput
    linear_from_dB powf
      (s.compressorThreshold_dB
        + (absoluteValueInput_dB - s.compressorThreshold_dB) / s.compressorRatio)
  else
    absoluteValueInput

/-- Body of the `for` loop of `process` (lines 69-85) for the sample `x = in[i]`:
the new globals and the value stored to `out[i]`. -/
def processSample (powf : α → α → α) (log10f : α → α) (s : State α) (x : α) :
    State α × α :=
  let isNegative : Bool := decide (x < 0)
  let absoluteValue := |x|
  let s1 : State α :=
    if absoluteValue > s.maxAmplitudeInput then
      { s with maxAmplitudeInput := absoluteValue }
    else s
  let absoluteCompressed := compress powf log10f s1 absoluteValue
  let absoluteCompressedGained := absoluteCompressed * s1.makeupGain
  let absoluteCompressedGained :=
    if absoluteCompressedGained > 1 then 1 else absoluteCompressedGained
  let s2 : State α :=
    if absoluteCompressedGained > s1.maxAmplitudeOutput then
      { s1 with maxAmplitudeOutput := absoluteCompressedGained }
    else s1
  (s2, if isNegative then -absoluteCompressedGained else absoluteCompressedGained)

/-- The callback `process` (lines 57-89): the loop over the input buffer, giving the
final globals and the output buffer. -/
def process (powf : α → α → α) (log10f : α → α) (s : State α) :
    List α → State α × List α
  | [] => (s, [])
  | x :: xs =>
    let r := processSample powf log10f s x
    let rest := process powf log10f r.1 xs
    (rest.1, r.2 :: rest.2)

/-- The curses constant `ERR`, returned by `getch()` when no key is pending. -/
def ERR : Int := -1

/-- The `switch (keystroke)` of `main` (lines 253-302). The case labels are the
character codes of the C character constants. -/
def keySwitch (keystroke : Int) (s : State α) : State α :=
  if keystroke = 61 then        -- '='
    { s with makeupGain_dB := s.makeupGain_dB + 1 }
  else if keystroke = 43 then   -- '+'
    { s with makeupGain_dB := s.makeupGain_dB + 0.1 }
  else if keystroke = 45 then   -- '-'
    { s with makeupGain_dB := s.makeupGain_dB - 1 }
  else if keystroke = 95 then   -- '_'
    { s with makeupGain_dB := s.makeupGain_dB - 0.1 }
  else if keystroke = 116 then  -- 't'
    { s with compressorThreshold_dB := s.compressorThreshold_dB + 1 }
  else if keystroke = 84 then   -- 'T'
    { s with compressorThreshold_dB := s.compressorThreshold_dB + 0.1 }
  else if keystroke = 103 then  -- 'g'
    { s with compressorThreshold_dB := s.compressorThreshold_dB - 1 }
  else if keystroke = 71 then   -- 'G'
    { s with compressorThreshold_dB := s.compressorThreshold_dB - 0.1 }
  else if keystroke = 114 then  -- 'r'
    { s with compressorRatio := s.compressorRatio + 1 }
  else if keystroke = 82 then   -- 'R'
    { s with compressorRatio := s.compressorRatio + 0.1 }
  else if keystroke = 102 then  -- 'f'
    { s with compressorRatio := s.compressorRatio - 1 }
  else if keystroke = 70 then   -- 'F'
    { s with compressorRatio := s.compressorRatio - 0.1 }
  else s

/-- One iteration of the `while (true)` loop of `main` (lines 224-318), as far as
the globals are concerned: the two meters are reset after being drawn, the
key returned by `getch()` is handled, the ratio is floored and the two
linear coefficients are recomputed. -/
def mainLoopBody (powf : α → α → α) (keystroke : Int) (s : State α) : State α :=
  let s : State α := { s with maxAmplitudeInput := 0 }
  let s : State α := { s with maxAmplitudeOutput := 0 }
  let s : State α := if keystroke ≠ ERR then keySwitch keystroke s else s
  let s : State α := if s.compressorRatio < 1 then { s with compressorRatio := 1 } else s
  let s : State α := { s with makeupGain := linear_from_dB powf s.makeupGain_dB }
  { s with compressorThreshold := linear_from_dB powf s.compressorThreshold_dB }

/-- Finitely many iterations of the control loop, one `getch()` result each. -/
def mainLoop (powf : α → α → α) (keystrokes : List Int) (s : State α) : State α :=
  keystrokes.foldl (fun st k => mainLoopBody powf k st) s

end Compressor

namespace Compressor32

/-- Globals of `jack-ncurses-compressor-filter.c` (lines 21-30), as binary32 values. -/
structure State where
  makeupGain_dB : F32
  makeupGain : F32
  compressorThreshold_dB : F32
  compressorThreshold : F32
  compressorRatio : F32
  maxAmplitudeInput : F32
  maxAmplitudeOutput : F32

/-- Initial values of the globals (lines 21-30). -/
def initialState : State :=
  { makeupGain_dB := F32.fin 0
    makeupGain := F32.fin 1
    compressorThreshold_dB := F32.fin 0
    compressorThreshold := F32.fin 1
    compressorRatio := F32.fin 1
    maxAmplitudeInput := F32.fin 0
    maxAmplitudeOutput := F32.fin 0 }

/-- Source lines 34-36: `powf(10.0f, 0.05f * dB)`; `0.05f` is the binary32 nearest
to 0.05. -/
def linear_from_dB (powf : F32 → F32 → F32) (dB : F32) : F32 :=
  powf (F32.fin 10) (F32.mul (F32.round32 0.05) dB)

/-- Source lines 38-40: `20.0f * log10f(linear)`. -/
def dB_from_linear (log10f : F32 → F32) (linear : F32) : F32 :=
  F32.mul (F32.fin 20) (log10f linear)

/-- Source lines 42-50. -/
def compress (powf : F32 → F32 → F32) (log10f : F32 → F32) (s : State)
    (absoluteValueInput : F32) : F32 :=
  if F32.gt absoluteValueInput s.compressorThreshold then
    let absoluteValueInput_dB := dB_from_linear log10f absoluteValueInput
    linear_from_dB powf
      (F32.add s.compressorThreshold_dB
        (F32.div (F32.sub absoluteValueInput_dB s.compressorThreshold_dB) s.compressorRatio))
  else
    absoluteValueInput

/-- Body of the `for` loop of `process` (lines 69-85) for the sample `x = in[i]`:
the new globals and the value stored to `out[i]`. -/
def processSample (powf : F32 → F32 → F32) (log10f : F32 → F32) (s : State) (x : F32) :
    State × F32 :=
  let isNegative : Bool := F32.lt x (F32.fin 0)
  let absoluteValue := F32.fabs x
  let s1 : State :=
    if F32.gt absoluteValue s.maxAmplitudeInput then
      { s with maxAmplitudeInput := absoluteValue }
    else s
  let absoluteCompressed := compress powf log10f s1 absoluteValue
  let absoluteCompressedGained := F32.mul absoluteCompressed s1.makeupGain
  let absoluteCompressedGained :=
    if F32.gt absoluteCompressedGained (F32.fin 1) then F32.fin 1 else absoluteCompressedGained
  let s2 : State :=
    if F32.gt absoluteCompressedGained s1.maxAmplitudeOutput then
      { s1 with maxAmplitudeOutput := absoluteCompressedGained }
    else s1
  (s2, if isNegative then F32.neg absoluteCompressedGained else absoluteCompressedGained)

/-- The callback `process` (lines 57-89): the loop over the input buffer, giving the
final globals and the output buffer. -/
def process (powf : F32 → F32 → F32) (log10f : F32 → F32) (s : State) :
    List F32 → State × List F32
  | [] => (s, [])
  | x :: xs =>
    let r := processSample powf log10f s x
    let rest := process powf log10f r.1 xs
    (rest.1, r.2 :: rest.2)

/-- The curses constant `ERR`, returned by `getch()` when no key is pending. -/
def ERR : Int := -1

/-- The `switch (keystroke)` of `main` (lines 253-302); `0.1f` is the binary32 nearest
to 0.1. -/
def keySwitch (keystroke : Int) (s : State) : State :=
  if keystroke = 61 then        -- '='
    { s with makeupGain_dB := F32.add s.makeupGain_dB (F32.fin 1) }
  else if keystroke = 43 then   -- '+'
    { s with makeupGain_dB := F32.add s.makeupGain_dB (F32.round32 0.1) }
  else if keystroke = 45 then   -- '-'
    { s with makeupGain_dB := F32.sub s.makeupGain_dB (F32.fin 1) }
  else if keystroke = 95 then   -- '_'
    { s with makeupGain_dB := F32.sub s.makeupGain_dB (F32.round32 0.1) }
  else if keystroke = 116 then  -- 't'
    { s with compressorThreshold_dB := F32.add s.compressorThreshold_dB (F32.fin 1) }
  else if keystroke = 84 then   -- 'T'
    { s with compressorThreshold_dB := F32.add s.compressorThreshold_dB (F32.round32 0.1) }
  else if keystroke = 103 then  -- 'g'
    { s with compressorThreshold_dB := F32.sub s.compressorThreshold_dB (F32.fin 1) }
  else if keystroke = 71 then   -- 'G'
    { s with compressorThreshold_dB := F32.sub s.compressorThreshold_dB (F32.round32 0.1) }
  else if keystroke = 114 then  -- 'r'
    { s with compressorRatio := F32.add s.compressorRatio (F32.fin 1) }
  else if keystroke = 82 then   -- 'R'
    { s with compressorRatio := F32.add s.compressorRatio (F32.round32 0.1) }
  else if keystroke = 102 then  -- 'f'
    { s with compressorRatio := F32.sub s.compressorRatio (F32.fin 1) }
  else if keystroke = 70 then   -- 'F'
    { s with compressorRatio := F32.sub s.compressorRatio (F32.round32 0.1) }
  else s

/-- One iteration of the `while (true)` loop of `main` (lines 224-318), as far as
the globals are concerned. -/
def mainLoopBody (powf : F32 → F32 → F32) (keystroke : Int) (s : State) : State :=
  let s : State := { s with maxAmplitudeInput := F32.fin 0 }
  let s : State := { s with maxAmplitudeOutput := F32.fin 0 }
  let s : State := if keystroke ≠ ERR then keySwitch keystroke s else s
  let s : State :=
    if F32.lt s.compressorRatio (F32.fin 1) then { s with compressorRatio := F32.fin 1 } else s
  let s : State := { s with makeupGain := linear_from_dB powf s.makeupGain_dB }
  { s with compressorThreshold := linear_from_dB powf s.compressorThreshold_dB }

/-- Finitely many iterations of the control loop, one `getch()` result each. -/
def mainLoop (powf : F32 → F32 → F32) (keystrokes : List Int) (s : State) : State :=
  keystrokes.foldl (fun st k => mainLoopBody powf k st) s

/-- Scenario 2 of the specification as a state of the compressor: threshold -20 dB,
ratio 4, makeup gain 0 dB, with the threshold coefficient as the control loop computes
it. -/
def scenario2 (powf : F32 → F32 → F32) : State :=
  { makeupGain_dB := F32.fin 0
    makeupGain := F32.fin 1
    compressorThreshold_dB := F32.fin (-20)
    compressorThreshold := linear_from_dB powf (F32.fin (-20))
    compressorRatio := F32.fin 4
    maxAmplitudeInput := F32.fin 0
    maxAmplitudeOutput := F32.fin 0 }

/-- Modelled from the spec: `linear = 10^(dB/20)`. A computable stand-in for the C
library's `powf` with base 10, used only to instantiate the parameter `powf` at a
concrete input: the exact power of ten at an integer exponent, interpolated linearly
between neighbouring integer exponents, rounded to binary32; `+inf`, 0 and NaN at the
exponents `+inf`, `-inf` and NaN. The program calls `powf` with base `10.0f` only, and
the base is not inspected. -/
def powfPiecewise (_base : F32) : F32 → F32
  | F32.nan => F32.nan
  | F32.inf false => F32.inf false
  | F32.inf true => F32.fin 0
  | F32.fin y => F32.round32 ((10 : ℚ) ^ ⌊y⌋ * (1 + 9 * (y - ⌊y⌋)))

/-- Modelled from the spec: `dB = 20·log10(linear)`. A computable stand-in for the C
library's `log10f`, used only to instantiate the parameter `log10f` at a concrete
input: the inverse of the interpolation of `powfPiecewise`, rounded to binary32; NaN
for a negative argument, `-inf` at 0. -/
def log10fPiecewise : F32 → F32
  | F32.nan => F32.nan
  | F32.inf false => F32.inf false
  | F32.inf true => F32.nan
  | F32.fin x =>
    if x < 0 then F32.nan
    else if x = 0 then F32.inf true
    else F32.round32 (Int.log 10 x + (x / 10 ^ Int.log 10 x - 1) / 9)

/-- The state with threshold -6.1 dB as binary32 arithmetic gives it, which the keys `g`
(six times) and `G` lead to, with the threshold coefficient as the control loop
computes it, and a given ratio. -/
def nearThreshold (powf : F32 → F32 → F32) (ratio : F32) : State :=
  { makeupGain_dB := F32.fin 0
    makeupGain := F32.fin 1
    compressorThreshold_dB := F32.fin (-12792627 / 2097152)
    compressorThreshold := linear_from_dB powf (F32.fin (-12792627 / 2097152))
    compressorRatio := ratio
    maxAmplitudeInput := F32.fin 0
    maxAmplitudeOutput := F32.fin 0 }

end Compressor32

namespace SimpleGain

/-- Globals of `simple_gain.c` (lines 20-28). -/
structure State (α : Type) where
  dBmakeupgain : α
  linearmakeupgain : α
  dBcompressorthreshold : α
  linearcompressorthreshold : α
  compressorratio : α
  maxamplitude : α

variable {α : Type} [LinearOrderedField α]

/-- Initial values of the globals (lines 20-28). -/
def initialState : State α :=
  { dBmakeupgain := 0
    linearmakeupgain := 1
    dBcompressorthreshold := -20
    linearcompressorthreshold := 0.1
    compressorratio := 1
    maxamplitude := 0 }

/-- Body of the `for` loop of `process` (lines 48-54) for the sample `x = in[i]`. -/
def processSample (s : State α) (x : α) : State α × α :=
  let out :=
    if x < s.linearcompressorthreshold then
      x * s.linearmakeupgain
    else
      (x + (x - s.linearcompressorthreshold) / s.compressorratio) * s.linearmakeupgain
  let s1 : State α := if |x| > s.maxamplitude then { s with maxamplitude := |x| } else s
  (s1, out)

/-- The callback `process` (lines 37-58). -/
def process (s : State α) : List α → State α × List α
  | [] => (s, [])
  | x :: xs =>
    let r := processSample s x
    let rest := process r.1 xs
    (rest.1, r.2 :: rest.2)

/-- The curses constant `ERR`. -/
def ERR : Int := -1

/-- The curses key code `KEY_DOWN` (octal 0402). -/
def KEY_DOWN : Int := 258

/-- The curses key code `KEY_UP` (octal 0403). -/
def KEY_UP : Int := 259

/-- The curses key code `KEY_LEFT` (octal 0404). -/
def KEY_LEFT : Int := 260

/-- The curses key code `KEY_RIGHT` (octal 0405). -/
def KEY_RIGHT : Int := 261

/-- The `switch (keystroke)` of `main` (lines 201-250). -/
def keySwitch (keystroke : Int) (s : State α) : State α :=
  if keystroke = KEY_UP then
    { s with dBmakeupgain := s.dBmakeupgain + 1 }
  else if keystroke = KEY_RIGHT then
    { s with dBmakeupgain := s.dBmakeupgain + 0.1 }
  else if keystroke = KEY_DOWN then
    { s with dBmakeupgain := s.dBmakeupgain - 1 }
  else if keystroke = KEY_LEFT then
    { s with dBmakeupgain := s.dBmakeupgain - 0.1 }
  else if keystroke = 116 then  -- 't'
    { s with dBcompressorthreshold := s.dBcompressorthreshold + 1 }
  else if keystroke = 84 then   -- 'T'
    { s with dBcompressorthreshold := s.dBcompressorthreshold + 0.1 }
  else if keystroke = 103 then  -- 'g'
    { s with dBcompressorthreshold := s.dBcompressorthreshold - 1 }
  else if keystroke = 71 then   -- 'G'
    { s with dBcompressorthreshold := s.dBcompressorthreshold - 0.1 }
  else if keystroke = 114 then  -- 'r'
    { s with compressorratio := s.compressorratio + 1 }
  else if keystroke = 82 then   -- 'R'
    { s with compressorratio := s.compressorratio + 0.1 }
  else if keystroke = 102 then  -- 'f'
    { s with compressorratio := s.compressorratio - 1 }
  else if keystroke = 70 then   -- 'F'
    { s with compressorratio := s.compressorratio - 0.1 }
  else s

/-- One iteration of the `while (true)` loop of `main` (lines 183-263): the meter
is reset after being drawn, the key is handled and the two linear
coefficients are recomputed with `pow(10, dB/20.0f)`. There is no statement
on `compressorratio` besides the four cases of the switch. -/
def mainLoopBody (pow : α → α → α) (keystroke : Int) (s : State α) : State α :=
  let s : State α := { s with maxamplitude := 0 }
  let s : State α := if keystroke ≠ ERR then keySwitch keystroke s else s
  let s : State α := { s with linearmakeupgain := pow 10 (s.dBmakeupgain / 20) }
  { s with linearcompressorthreshold := pow 10 (s.dBcompressorthreshold / 20) }

/-- Finitely many iterations of the control loop, one `getch()` result each. -/
def mainLoop (pow : α → α → α) (keystrokes : List Int) (s : State α) : State α :=
  keystrokes.foldl (fun st k => mainLoopBody pow k st) s

end SimpleGain

set_option linter.unusedVariables false

/-! ## Compressor: the audio callback -/

namespace Compressor

variable {α : Type} [LinearOrderedField α]

theorem processSample_maxAmplitudeInput (powf : α → α → α) (log10f : α → α) (s : State α)
    (x : α) :
    (processSample powf log10f s x).1.maxAmplitudeInput = max s.maxAmplitudeInput |x| := by
  by_cases h1 : |x| > s.maxAmplitudeInput
  · simp only [processSample, if_pos h1]
    split_ifs <;> exact (max_eq_right (le_of_lt h1)).symm
  · simp only [processSample, if_neg h1]
    split_ifs <;> exact (max_eq_left (not_lt.mp h1)).symm

theorem process_maxAmplitudeInput (powf : α → α → α) (log10f : α → α) (s : State α)
    (ins : List α) :
    (process powf log10f s ins).1.maxAmplitudeInput
      = (ins.map fun x => |x|).foldl max s.maxAmplitudeInput := by
  induction ins generalizing s with
  | nil => rfl
  | cons x xs ih =>
    simp only [process, List.map_cons, List.foldl_cons, ih, processSample_maxAmplitudeInput]

/-- A left fold of `max` is an upper bound of the start value and of the list, and is
one of them. -/
theorem foldl_max_spec (l : List α) (m : α) :
    m ≤ l.foldl max m ∧ (∀ a ∈ l, a ≤ l.foldl max m) ∧
      (l.foldl max m = m ∨ l.foldl max m ∈ l) := by
  induction l generalizing m with
  | nil => simp
  | cons b bs ih =>
    obtain ⟨h1, h2, h3⟩ := ih (max m b)
    simp only [List.foldl_cons, List.mem_cons]
    refine ⟨le_trans (le_max_left m b) h1, ?_, ?_⟩
    · intro a ha
      rcases ha with rfl | ha
      · exact le_trans (le_max_right m a) h1
      · exact h2 a ha
    · rcases h3 with h3 | h3
      · rcases max_choice m b with hm | hm
        · left; rw [h3, hm]
        · right; left; rw [h3, hm]
      · right; right; exact h3

/-! ### The control loop -/

theorem mainLoopBody_ratio_ge_one (powf : α → α → α) (keystroke : Int) (s : State α) :
    1 ≤ (mainLoopBody powf keystroke s).compressorRatio := by
  simp only [mainLoopBody]
  split_ifs with h1 h2 h3
  · exact le_refl _
  · exact not_lt.mp h2
  · exact le_refl _
  · exact not_lt.mp h3

theorem mainLoop_append (powf : α → α → α) (ks : List Int) (k : Int) (s : State α) :
    mainLoop powf (ks ++ [k]) s = mainLoopBody powf k (mainLoop powf ks s) := by
  simp [mainLoop]

theorem keySwitch_maxAmplitudeInput (keystroke : Int) (s : State α) :
    (keySwitch keystroke s).maxAmplitudeInput = s.maxAmplitudeInput := by
  unfold keySwitch
  simp only [apply_ite State.maxAmplitudeInput, ite_self]

theorem mainLoopBody_maxAmplitudeInput (powf : α → α → α) (keystroke : Int) (s : State α) :
    (mainLoopBody powf keystroke s).maxAmplitudeInput = 0 := by
  simp only [mainLoopBody]
  split_ifs <;> first | rfl | exact keySwitch_maxAmplitudeInput _ _

/-! ### The claims on the compressor -/

/-- C6: every iteration of the control loop ends with `compressorRatio ≥ 1`, whatever
the state it started in and whatever `getch()` returned; hence `compressorRatio ≥ 1`
after every finite sequence of iterations from the initial state. -/
theorem ratio_floor (powf : α → α → α) :
    (∀ (keystroke : Int) (s : State α), 1 ≤ (mainLoopBody powf keystroke s).compressorRatio) ∧
    ∀ keystrokes : List Int,
      1 ≤ (mainLoop powf keystrokes (initialState : State α)).compressorRatio := by
  refine ⟨mainLoopBody_ratio_ge_one powf, fun keystrokes => ?_⟩
  induction keystrokes using List.reverseRecOn with
  | nil => simp [mainLoop, initialState]
  | append_singleton ks k _ =>
    rw [mainLoop_append]
    exact mainLoopBody_ratio_ge_one powf k _

/-- C9: after `process` has run over a block, `maxAmplitudeInput` is the maximum of its
prior value and the absolute values of the samples: it is the left fold of `max`, it
bounds the prior value and every `|in[i]|`, and it is one of them; an empty block
leaves it as it was; and an iteration of the control loop leaves it at 0. -/
theorem level_meter_running_max (powf : α → α → α) (log10f : α → α) (s : State α)
    (ins : List α) :
    (process powf log10f s ins).1.maxAmplitudeInput
        = (ins.map fun x => |x|).foldl max s.maxAmplitudeInput ∧
    s.maxAmplitudeInput ≤ (process powf log10f s ins).1.maxAmplitudeInput ∧
    (∀ x ∈ ins, |x| ≤ (process powf log10f s ins).1.maxAmplitudeInput) ∧
    ((process powf log10f s ins).1.maxAmplitudeInput = s.maxAmplitudeInput ∨
      ∃ x ∈ ins, (process powf log10f s ins).1.maxAmplitudeInput = |x|) ∧
    (process powf log10f s []).1.maxAmplitudeInput = s.maxAmplitudeInput ∧
    ∀ keystroke : Int, (mainLoopBody powf keystroke s).maxAmplitudeInput = 0 := by
  obtain ⟨h1, h2, h3⟩ := foldl_max_spec (ins.map fun x => |x|) s.maxAmplitudeInput
  rw [process_maxAmplitudeInput]
  refine ⟨rfl, h1, ?_, ?_, rfl, ?_⟩
  · intro x hx
    exact h2 _ (List.mem_map_of_mem _ hx)
  · rcases h3 with h3 | h3
    · exact Or.inl h3
    · obtain ⟨x, hx, hxe⟩ := List.mem_map.mp h3
      exact Or.inr ⟨x, hx, hxe.symm⟩
  · exact fun keystroke => mainLoopBody_maxAmplitudeInput powf keystroke s

/-- Witness of C9: after a loop iteration has reset the meter, the block
`[0.1, -0.9, 0.3]` leaves `maxAmplitudeInput = 0.9`. -/
theorem level_meter_running_max_witness :
    (mainLoopBody Real.rpow ERR (initialState : State ℝ)).maxAmplitudeInput = 0 ∧
    (process Real.rpow (Real.logb 10)
      (mainLoopBody Real.rpow ERR (initialState : State ℝ)) [0.1, -0.9, 0.3]).1.maxAmplitudeInput
      = 0.9 := by
  have h0 := (level_meter_running_max Real.rpow (Real.logb 10)
    (initialState : State ℝ) ([] : List ℝ)).2.2.2.2.2 ERR
  refine ⟨h0, ?_⟩
  rw [(level_meter_running_max Real.rpow (Real.logb 10)
    (mainLoopBody Real.rpow ERR (initialState : State ℝ)) [0.1, -0.9, 0.3]).1, h0]
  norm_num [abs_of_pos, abs_of_neg]

end Compressor

/-! ## Binary32 arithmetic -/

namespace F32

theorem roundTiesEven_intCast (n : ℤ) : roundTiesEven (n : ℚ) = n := by
  simp [roundTiesEven]

theorem roundTiesEven_nonneg (x : ℚ) (hx : 0 ≤ x) : 0 ≤ roundTiesEven x := by
  have hf : 0 ≤ ⌊x⌋ := Int.floor_nonneg.mpr hx
  unfold roundTiesEven
  split_ifs <;> omega

theorem roundTiesEven_of_near (x : ℚ) (n : ℤ) (h : |x - n| < 1 / 2) : roundTiesEven x = n := by
  rw [abs_lt] at h
  obtain ⟨h1, h2⟩ := h
  by_cases hn : (n : ℚ) ≤ x
  · have hf : ⌊x⌋ = n := by
      rw [Int.floor_eq_iff]
      exact ⟨hn, by linarith⟩
    unfold roundTiesEven
    rw [hf, if_pos (by linarith)]
  · push_neg at hn
    have hf : ⌊x⌋ = n - 1 := by
      rw [Int.floor_eq_iff]
      push_cast
      exact ⟨by linarith, by linarith⟩
    unfold roundTiesEven
    rw [hf]
    push_cast
    rw [if_neg (by linarith), if_pos (by linarith)]
    ring

theorem roundTiesEven_tie_even (x : ℚ) (n : ℤ) (h : x = n + 1 / 2) (hn : n % 2 = 0) :
    roundTiesEven x = n := by
  have hf : ⌊x⌋ = n := by
    rw [Int.floor_eq_iff]
    exact ⟨by linarith, by linarith⟩
  unfold roundTiesEven
  rw [hf, if_neg (by linarith), if_neg (by linarith), if_pos hn]

theorem log_two_eq (q : ℚ) (e : ℤ) (h1 : (2 : ℚ) ^ e ≤ q) (h2 : q < (2 : ℚ) ^ (e + 1)) :
    Int.log 2 q = e := by
  have hq : 0 < q := lt_of_lt_of_le (by positivity) h1
  have a : e ≤ Int.log 2 q := (Int.zpow_le_iff_le_log (by norm_num) hq).mp (by exact_mod_cast h1)
  have b : Int.log 2 q < e + 1 := (Int.lt_zpow_iff_log_lt (by norm_num) hq).mp (by exact_mod_cast h2)
  omega

theorem exponent_eq (q : ℚ) (e : ℤ) (h1 : (2 : ℚ) ^ e ≤ |q|) (h2 : |q| < (2 : ℚ) ^ (e + 1))
    (he : -126 ≤ e) : exponent q = e := by
  unfold exponent
  rw [log_two_eq |q| e h1 h2]
  exact max_eq_left he

/-- Rounding, given the binade of `q` and the integer its scaled value rounds to. -/
theorem round32_eq_fin (q : ℚ) (e n : ℤ) (h1 : (2 : ℚ) ^ e ≤ |q|)
    (h2 : |q| < (2 : ℚ) ^ (e + 1)) (he : -126 ≤ e)
    (hn : roundTiesEven (q / 2 ^ (e - 23)) = n) (hr : |(n : ℚ) * 2 ^ (e - 23)| < 2 ^ 128) :
    round32 q = fin (n * 2 ^ (e - 23)) := by
  unfold round32 roundValue
  simp only [exponent_eq q e h1 h2 he, hn]
  rw [if_neg (not_le.mpr hr)]

theorem round32_zero : round32 0 = fin 0 := by
  unfold round32 roundValue
  simp [roundTiesEven]

theorem round32_nonneg (q : ℚ) (hq : 0 ≤ q) :
    round32 q = inf false ∨ ∃ r : ℚ, 0 ≤ r ∧ round32 q = fin r := by
  unfold round32 roundValue
  have hu : (0 : ℚ) < 2 ^ (exponent q - 23) := by positivity
  have hn : 0 ≤ roundTiesEven (q / 2 ^ (exponent q - 23)) :=
    roundTiesEven_nonneg _ (div_nonneg hq hu.le)
  split_ifs with h
  · left
    simp [not_lt.mpr hq]
  · right
    exact ⟨_, mul_nonneg (by exact_mod_cast hn) hu.le, rfl⟩

theorem round32_intCast (k : ℤ) (hk : |k| ≤ 2 ^ 24) : round32 (k : ℚ) = fin k := by
  rcases eq_or_ne k 0 with rfl | hk0
  · simpa using round32_zero
  have habs : (1 : ℚ) ≤ |(k : ℚ)| := by
    have : (1 : ℤ) ≤ |k| := Int.one_le_abs hk0
    exact_mod_cast this
  have hle : |(k : ℚ)| ≤ 2 ^ 24 := by exact_mod_cast hk
  have hpos : (0 : ℚ) < |(k : ℚ)| := by linarith
  have e0 : 0 ≤ Int.log 2 |(k : ℚ)| :=
    (Int.zpow_le_iff_le_log (by norm_num) hpos).mp (by simpa using habs)
  have e24 : Int.log 2 |(k : ℚ)| < 25 :=
    (Int.lt_zpow_iff_log_lt (by norm_num) hpos).mp (by norm_num; linarith)
  have hex : exponent (k : ℚ) = Int.log 2 |(k : ℚ)| := max_eq_left (by omega)
  have hlow : ((2 : ℕ) : ℚ) ^ Int.log 2 |(k : ℚ)| ≤ |(k : ℚ)| :=
    Int.zpow_log_le_self (by norm_num) hpos
  -- the scaled value is an integer
  have hint : ∃ m : ℤ, (k : ℚ) / 2 ^ (Int.log 2 |(k : ℚ)| - 23) = m := by
    rcases lt_or_ge (Int.log 2 |(k : ℚ)|) 24 with h | h
    · obtain ⟨j, hj⟩ : ∃ j : ℕ, Int.log 2 |(k : ℚ)| - 23 = -(j : ℤ) :=
        ⟨(23 - Int.log 2 |(k : ℚ)|).toNat, by omega⟩
      refine ⟨k * 2 ^ j, ?_⟩
      rw [hj, zpow_neg, zpow_natCast, div_inv_eq_mul]
      push_cast
      ring
    · have h24 : Int.log 2 |(k : ℚ)| = 24 := by omega
      rw [h24] at hlow ⊢
      have hk24 : |k| = 2 ^ 24 := by
        have : (2 : ℤ) ^ 24 ≤ |k| := by
          have h' : ((2 : ℚ)) ^ (24 : ℤ) ≤ |(k : ℚ)| := by simpa using hlow
          have h'' : (((2 : ℤ) ^ 24 : ℤ) : ℚ) ≤ ((|k| : ℤ) : ℚ) := by
            push_cast
            norm_num at h' ⊢
            exact h'
          exact_mod_cast h''
        omega
      rcases abs_eq (by positivity : (0 : ℤ) ≤ 2 ^ 24) |>.mp hk24 with h' | h'
      · exact ⟨2 ^ 23, by rw [h']; norm_num⟩
      · exact ⟨-2 ^ 23, by rw [h']; norm_num⟩
  obtain ⟨m, hm⟩ := hint
  unfold round32 roundValue
  simp only [hex, hm, roundTiesEven_intCast]
  have hval : (m : ℚ) * 2 ^ (Int.log 2 |(k : ℚ)| - 23) = k := by
    rw [← hm]
    field_simp
  rw [hval, if_neg]
  · exact not_le.mpr (lt_of_le_of_lt hle (by norm_num))

theorem round32_tenth : round32 0.1 = fin (13421773 / 134217728) := by
  have h := round32_eq_fin 0.1 (-4) 13421773 (by norm_num [abs_of_pos])
    (by norm_num [abs_of_pos]) (by norm_num)
    (roundTiesEven_of_near _ _ (by norm_num [abs_lt])) (by norm_num [abs_of_pos])
  rw [h]
  norm_num

theorem round32_twentieth : round32 0.05 = fin (13421773 / 268435456) := by
  have h := round32_eq_fin 0.05 (-5) 13421773 (by norm_num [abs_of_pos])
    (by norm_num [abs_of_pos]) (by norm_num)
    (roundTiesEven_of_near _ _ (by norm_num [abs_lt])) (by norm_num [abs_of_pos])
  rw [h]
  norm_num

theorem zero_add_tenth : add (fin 0) (round32 0.1) = fin (13421773 / 134217728) := by
  rw [round32_tenth]
  have h := round32_eq_fin (0 + 13421773 / 134217728) (-4) 13421773 (by norm_num [abs_of_pos])
    (by norm_num [abs_of_pos]) (by norm_num)
    (roundTiesEven_of_near _ _ (by norm_num [abs_lt])) (by norm_num [abs_of_pos])
  show round32 (0 + 13421773 / 134217728) = _
  rw [h]
  norm_num

theorem tenth_add_one : add (fin (13421773 / 134217728)) (fin 1) = fin (9227469 / 8388608) := by
  have h := round32_eq_fin (13421773 / 134217728 + 1) 0 9227469 (by norm_num [abs_of_pos])
    (by norm_num [abs_of_pos]) (by norm_num)
    (roundTiesEven_of_near _ _ (by norm_num [abs_lt])) (by norm_num [abs_of_pos])
  show round32 (13421773 / 134217728 + 1) = _
  rw [h]
  norm_num

theorem two_pow_24_add_one : add (fin 16777216) (fin 1) = fin 16777216 := by
  have h := round32_eq_fin (16777216 + 1) 24 8388608 (by norm_num [abs_of_pos])
    (by norm_num [abs_of_pos]) (by norm_num)
    (roundTiesEven_tie_even _ _ (by norm_num) (by norm_num)) (by norm_num [abs_of_pos])
  show round32 (16777216 + 1) = _
  rw [h]
  norm_num

theorem add_intCast (k j : ℤ) (h : |k + j| ≤ 2 ^ 24) :
    add (fin k) (fin j) = fin ((k + j : ℤ) : ℚ) := by
  show round32 ((k : ℚ) + (j : ℚ)) = _
  rw [← Int.cast_add]
  exact round32_intCast _ h

theorem roundTiesEven_bounds (x : ℚ) : ⌊x⌋ ≤ roundTiesEven x ∧ roundTiesEven x ≤ ⌊x⌋ + 1 := by
  unfold roundTiesEven
  split_ifs <;> constructor <;> omega

theorem roundTiesEven_mono {x y : ℚ} (h : x ≤ y) : roundTiesEven x ≤ roundTiesEven y := by
  have hxy : ⌊x⌋ ≤ ⌊y⌋ := Int.floor_mono h
  rcases lt_or_eq_of_le hxy with hlt | heq
  · have := (roundTiesEven_bounds x).2
    have := (roundTiesEven_bounds y).1
    omega
  · unfold roundTiesEven
    rw [← heq]
    split_ifs <;> first | omega | (exfalso; linarith)

/-- Bounds of the rounded value by multiples of the unit in the last place. -/
theorem roundValue_bounds (q : ℚ) (m : ℤ) :
    ((m : ℚ) * 2 ^ (exponent q - 23) ≤ q → (m : ℚ) * 2 ^ (exponent q - 23) ≤ roundValue q) ∧
    (q ≤ (m : ℚ) * 2 ^ (exponent q - 23) → roundValue q ≤ (m : ℚ) * 2 ^ (exponent q - 23)) := by
  have hu : (0 : ℚ) < 2 ^ (exponent q - 23) := by positivity
  unfold roundValue
  constructor
  · intro h
    have h' : (m : ℚ) ≤ q / 2 ^ (exponent q - 23) := (le_div_iff₀ hu).mpr h
    have := roundTiesEven_mono h'
    rw [roundTiesEven_intCast] at this
    have hc : (m : ℚ) ≤ (roundTiesEven (q / 2 ^ (exponent q - 23)) : ℚ) := by exact_mod_cast this
    exact mul_le_mul_of_nonneg_right hc hu.le
  · intro h
    have h' : q / 2 ^ (exponent q - 23) ≤ (m : ℚ) := (div_le_iff₀ hu).mpr h
    have := roundTiesEven_mono h'
    rw [roundTiesEven_intCast] at this
    have hc : (roundTiesEven (q / 2 ^ (exponent q - 23)) : ℚ) ≤ (m : ℚ) := by exact_mod_cast this
    exact mul_le_mul_of_nonneg_right hc hu.le

theorem roundValue_nonneg {q : ℚ} (h : 0 ≤ q) : 0 ≤ roundValue q := by
  have := (roundValue_bounds q 0).1 (by simpa using h)
  simpa using this

theorem roundValue_nonpos {q : ℚ} (h : q ≤ 0) : roundValue q ≤ 0 := by
  have := (roundValue_bounds q 0).2 (by simpa using h)
  simpa using this

theorem abs_lt_zpow_exponent (q : ℚ) : |q| < (2 : ℚ) ^ (exponent q + 1) := by
  have h1 : |q| < ((2 : ℕ) : ℚ) ^ (Int.log 2 |q| + 1) := Int.lt_zpow_succ_log_self (by norm_num) _
  have h2 : ((2 : ℕ) : ℚ) ^ (Int.log 2 |q| + 1) ≤ (2 : ℚ) ^ (exponent q + 1) := by
    push_cast
    apply zpow_le_zpow_right₀ (by norm_num)
    have : Int.log 2 |q| ≤ exponent q := le_max_left _ _
    omega
  exact lt_of_lt_of_le h1 h2

theorem zpow_exponent_le_abs {q : ℚ} (hq : q ≠ 0) (he : -126 < exponent q) :
    (2 : ℚ) ^ exponent q ≤ |q| := by
  have hlog : exponent q = Int.log 2 |q| := by
    unfold exponent at he ⊢
    rcases le_total (Int.log 2 |q|) (-126) with h | h
    · rw [max_eq_right h] at he
      omega
    · exact max_eq_left h
  rw [hlog]
  have := Int.zpow_log_le_self (b := 2) (r := |q|) (by norm_num) (abs_pos.mpr hq)
  exact_mod_cast this

theorem exponent_mono {p q : ℚ} (hp : p ≠ 0) (h : |p| ≤ |q|) : exponent p ≤ exponent q :=
  max_le_max (Int.log_mono_right (abs_pos.mpr hp) h) le_rfl

theorem two_zpow_split (e : ℤ) (k : ℕ) :
    ((2 ^ k : ℤ) : ℚ) * 2 ^ (e - 23) = (2 : ℚ) ^ (e - 23 + k) := by
  push_cast
  rw [zpow_add₀ (by norm_num), zpow_natCast]
  ring

theorem neg_two_zpow_split (e : ℤ) (k : ℕ) :
    ((-(2 ^ k) : ℤ) : ℚ) * 2 ^ (e - 23) = -(2 : ℚ) ^ (e - 23 + k) := by
  push_cast
  rw [zpow_add₀ (by norm_num), zpow_natCast]
  ring

/-- Rounding to the binary32 grid is monotone. -/
theorem roundValue_mono {p q : ℚ} (h : p ≤ q) : roundValue p ≤ roundValue q := by
  rcases le_or_lt p 0 with hp | hp
  · rcases le_or_lt 0 q with hq | hq
    · exact le_trans (roundValue_nonpos hp) (roundValue_nonneg hq)
    · -- both negative
      have hp' : p < 0 := lt_of_le_of_lt h hq
      have habs : |q| ≤ |p| := by
        rw [abs_of_neg hq, abs_of_neg hp']
        linarith
      have he := exponent_mono hq.ne habs
      rcases lt_or_eq_of_le he with hlt | heq
      · have e1 : -126 < exponent p := by
          have : -126 ≤ exponent q := le_max_right _ _
          omega
        have hlow := zpow_exponent_le_abs hp'.ne e1
        have hup := abs_lt_zpow_exponent q
        rw [abs_of_neg hp'] at hlow
        rw [abs_of_neg hq] at hup
        have b1 := (roundValue_bounds p (-(2 ^ 23))).2 (by
          rw [neg_two_zpow_split]
          have : exponent p - 23 + ((23 : ℕ) : ℤ) = exponent p := by push_cast; ring
          rw [this]
          linarith)
        have b2 := (roundValue_bounds q (-(2 ^ 24))).1 (by
          rw [neg_two_zpow_split]
          have : exponent q - 23 + ((24 : ℕ) : ℤ) = exponent q + 1 := by push_cast; ring
          rw [this]
          linarith)
        rw [neg_two_zpow_split] at b1 b2
        have t1 : exponent p - 23 + ((23 : ℕ) : ℤ) = exponent p := by push_cast; ring
        have t2 : exponent q - 23 + ((24 : ℕ) : ℤ) = exponent q + 1 := by push_cast; ring
        rw [t1] at b1
        rw [t2] at b2
        have hz : (2 : ℚ) ^ (exponent q + 1) ≤ (2 : ℚ) ^ exponent p :=
          zpow_le_zpow_right₀ (by norm_num) (by omega)
        linarith
      · unfold roundValue
        rw [heq]
        have hu : (0 : ℚ) < 2 ^ (exponent p - 23) := by positivity
        have := roundTiesEven_mono (div_le_div_of_nonneg_right h hu.le)
        exact mul_le_mul_of_nonneg_right (by exact_mod_cast this) hu.le
  · -- both positive
    have hq : 0 < q := lt_of_lt_of_le hp h
    have habs : |p| ≤ |q| := by
      rw [abs_of_pos hp, abs_of_pos hq]
      exact h
    have he := exponent_mono hp.ne' habs
    rcases lt_or_eq_of_le he with hlt | heq
    · have e2 : -126 < exponent q := by
        have : -126 ≤ exponent p := le_max_right _ _
        omega
      have hlow := zpow_exponent_le_abs hq.ne' e2
      have hup := abs_lt_zpow_exponent p
      rw [abs_of_pos hq] at hlow
      rw [abs_of_pos hp] at hup
      have t1 : exponent q - 23 + ((23 : ℕ) : ℤ) = exponent q := by push_cast; ring
      have t2 : exponent p - 23 + ((24 : ℕ) : ℤ) = exponent p + 1 := by push_cast; ring
      have b1 := (roundValue_bounds q (2 ^ 23)).1 (by
        rw [two_zpow_split, t1]
        exact hlow)
      have b2 := (roundValue_bounds p (2 ^ 24)).2 (by
        rw [two_zpow_split, t2]
        exact hup.le)
      rw [two_zpow_split, t1] at b1
      rw [two_zpow_split, t2] at b2
      have hz : (2 : ℚ) ^ (exponent p + 1) ≤ (2 : ℚ) ^ exponent q :=
        zpow_le_zpow_right₀ (by norm_num) (by omega)
      linarith
    · unfold roundValue
      rw [← heq]
      have hu : (0 : ℚ) < 2 ^ (exponent p - 23) := by positivity
      have := roundTiesEven_mono (div_le_div_of_nonneg_right h hu.le)
      exact mul_le_mul_of_nonneg_right (by exact_mod_cast this) hu.le

/-- A value that is not below zero is NaN, `+inf` or a finite value at or above 0. -/
theorem cases_of_not_lt_zero (v : F32) (h : lt v (fin 0) = false) :
    v = nan ∨ v = inf false ∨ ∃ r : ℚ, 0 ≤ r ∧ v = fin r := by
  cases v with
  | nan => exact Or.inl rfl
  | inf s =>
    cases s with
    | false => exact Or.inr (Or.inl rfl)
    | true => simp [lt] at h
  | fin q =>
    right; right
    refine ⟨q, ?_, rfl⟩
    simpa [lt] using h

theorem round32_ne_nan (q : ℚ) : round32 q ≠ nan := by
  unfold round32
  split_ifs <;> simp

theorem lt_inf_true (x : F32) : lt x (inf true) = false := by
  cases x with
  | nan => rfl
  | inf s => cases s <;> rfl
  | fin q => rfl

theorem inf_false_lt (x : F32) : lt (inf false) x = false := by
  cases x with
  | nan => rfl
  | inf s => cases s <;> rfl
  | fin q => rfl

/-- Rounding to binary32 is monotone. -/
theorem round32_mono {p q : ℚ} (h : p ≤ q) : le (round32 p) (round32 q) := by
  refine ⟨round32_ne_nan p, round32_ne_nan q, ?_⟩
  have hm := roundValue_mono h
  unfold round32
  by_cases hp : 2 ^ 128 ≤ |roundValue p|
  · rw [if_pos hp]
    by_cases hneg : p < 0
    · simp only [hneg, decide_True]
      exact lt_inf_true _
    · have hp0 : 0 ≤ roundValue p := roundValue_nonneg (not_lt.mp hneg)
      rw [abs_of_nonneg hp0] at hp
      have hq0 : 0 ≤ roundValue q := le_trans hp0 hm
      have hq : 2 ^ 128 ≤ |roundValue q| := by
        rw [abs_of_nonneg hq0]
        linarith
      have hqneg : ¬ q < 0 := not_lt.mpr (le_trans (not_lt.mp hneg) h)
      rw [if_pos hq]
      simp only [hneg, hqneg, decide_False]
      rfl
  · rw [if_neg hp]
    by_cases hq : 2 ^ 128 ≤ |roundValue q|
    · rw [if_pos hq]
      by_cases hneg : q < 0
      · exfalso
        have hq0 : roundValue q ≤ 0 := roundValue_nonpos hneg.le
        rw [abs_of_nonpos hq0] at hq
        have hp0 : roundValue p ≤ 0 := le_trans hm hq0
        apply hp
        rw [abs_of_nonpos hp0]
        linarith
      · simp only [hneg, decide_False]
        exact inf_false_lt _
    · rw [if_neg hq]
      simp [lt, hm]

/-- Adding a finite value on the left is monotone. -/
theorem add_mono_right (t : ℚ) {y z : F32} (h : le y z) : le (add (fin t) y) (add (fin t) z) := by
  obtain ⟨hy, hz, hlt⟩ := h
  cases y with
  | nan => exact absurd rfl hy
  | inf s =>
    cases z with
    | nan => exact absurd rfl hz
    | inf u =>
      cases s <;> cases u <;> simp_all [le, lt, add]
    | fin b =>
      cases s
      · simp [lt] at hlt
      · exact ⟨by simp [add], round32_ne_nan _, lt_inf_true _⟩
  | fin a =>
    cases z with
    | nan => exact absurd rfl hz
    | inf u =>
      cases u
      · exact ⟨round32_ne_nan _, by simp [add], inf_false_lt _⟩
      · simp [lt] at hlt
    | fin b =>
      have hab : a ≤ b := by simpa [lt] using hlt
      exact round32_mono (by linarith)

/-- Multiplying by a positive finite value on the left is monotone. -/
theorem mul_mono_right {c : ℚ} (hc : 0 < c) {y z : F32} (h : le y z) :
    le (mul (fin c) y) (mul (fin c) z) := by
  obtain ⟨hy, hz, hlt⟩ := h
  have hc0 : c ≠ 0 := hc.ne'
  have hcn : ¬ c < 0 := not_lt.mpr hc.le
  cases y with
  | nan => exact absurd rfl hy
  | inf s =>
    cases z with
    | nan => exact absurd rfl hz
    | inf u =>
      cases s <;> cases u <;> simp_all [le, lt, mul]
    | fin b =>
      cases s
      · simp [lt] at hlt
      · refine ⟨by simp [mul, hc0], round32_ne_nan _, ?_⟩
        simp only [mul, if_neg hc0, hcn, decide_False, Bool.false_xor]
        exact lt_inf_true _
  | fin a =>
    cases z with
    | nan => exact absurd rfl hz
    | inf u =>
      cases u
      · refine ⟨round32_ne_nan _, by simp [mul, hc0], ?_⟩
        simp only [mul, if_neg hc0, hcn, decide_False, Bool.false_xor]
        exact inf_false_lt _
      · simp [lt] at hlt
    | fin b =>
      have hab : a ≤ b := by simpa [lt] using hlt
      exact round32_mono (mul_le_mul_of_nonneg_left hab hc.le)

/-- A difference that is not negative, divided by a larger ratio, is not larger. -/
theorem div_le_div_of_ratio_le (x : F32) (hx : lt x (fin 0) = false) (hxn : x ≠ nan)
    {r1 r2 : ℚ} (h1 : 1 ≤ r1) (h12 : r1 ≤ r2) : le (div x (fin r2)) (div x (fin r1)) := by
  have hr1 : (0 : ℚ) < r1 := by linarith
  have hr2 : (0 : ℚ) < r2 := by linarith
  rcases cases_of_not_lt_zero x hx with rfl | rfl | ⟨v, hv, rfl⟩
  · exact absurd rfl hxn
  · simp [le, lt, div, not_lt.mpr hr1.le, not_lt.mpr hr2.le]
  · have e1 : div (fin v) (fin r1) = round32 (v / r1) := by simp [div, hr1.ne']
    have e2 : div (fin v) (fin r2) = round32 (v / r2) := by simp [div, hr2.ne']
    rw [e1, e2]
    exact round32_mono (div_le_div_of_nonneg_left hv hr1 h12)

theorem twentieth_mul_neg_20 : mul (round32 0.05) (fin (-20)) = fin (-1) := by
  rw [round32_twentieth]
  have h := round32_eq_fin (13421773 / 268435456 * -20) 0 (-8388608)
    (by norm_num [abs_of_neg]) (by norm_num [abs_of_neg]) (by norm_num)
    (roundTiesEven_of_near _ _ (by norm_num [abs_lt])) (by norm_num [abs_of_pos])
  show round32 (13421773 / 268435456 * -20) = _
  rw [h]
  norm_num

theorem neg_six_sub_tenth : sub (fin (-6)) (round32 0.1) = fin (-12792627 / 2097152) := by
  rw [round32_tenth]
  have h := round32_eq_fin (-6 + -(13421773 / 134217728)) 2 (-12792627)
    (by norm_num [abs_of_neg]) (by norm_num [abs_of_neg]) (by norm_num)
    (roundTiesEven_of_near _ _ (by norm_num [abs_lt])) (by norm_num [abs_of_pos])
  show round32 (-6 + -(13421773 / 134217728)) = _
  rw [h]
  norm_num

theorem twentieth_mul_threshold :
    mul (round32 0.05) (fin (-12792627 / 2097152)) = fin (-10234102 / 33554432) := by
  rw [round32_twentieth]
  have h := round32_eq_fin (13421773 / 268435456 * (-12792627 / 2097152)) (-2) (-10234102)
    (by norm_num [abs_of_neg]) (by norm_num [abs_of_neg]) (by norm_num)
    (roundTiesEven_of_near _ _ (by norm_num [abs_lt])) (by norm_num [abs_of_pos])
  show round32 (13421773 / 268435456 * (-12792627 / 2097152)) = _
  rw [h]
  norm_num

theorem twenty_mul_level :
    mul (fin 20) (fin (-10234102 / 33554432)) = fin (-12792628 / 2097152) := by
  have h := round32_eq_fin (20 * (-10234102 / 33554432)) 2 (-12792628)
    (by norm_num [abs_of_neg]) (by norm_num [abs_of_neg]) (by norm_num)
    (roundTiesEven_tie_even _ _ (by norm_num) (by norm_num)) (by norm_num [abs_of_pos])
  show round32 (20 * (-10234102 / 33554432)) = _
  rw [h]
  norm_num

theorem level_sub_threshold :
    sub (fin (-12792628 / 2097152)) (fin (-12792627 / 2097152)) = fin (-1 / 2097152) := by
  have h := round32_eq_fin (-12792628 / 2097152 + -(-12792627 / 2097152)) (-21) (-8388608)
    (by norm_num [abs_of_neg]) (by norm_num [abs_of_neg]) (by norm_num)
    (roundTiesEven_of_near _ _ (by norm_num [abs_lt])) (by norm_num [abs_of_pos])
  show round32 (-12792628 / 2097152 + -(-12792627 / 2097152)) = _
  rw [h]
  norm_num

theorem excess_div_two : div (fin (-1 / 2097152)) (fin 2) = fin (-1 / 4194304) := by
  have h := round32_eq_fin (-1 / 2097152 / 2) (-22) (-8388608)
    (by norm_num [abs_of_neg]) (by norm_num [abs_of_neg]) (by norm_num)
    (roundTiesEven_of_near _ _ (by norm_num [abs_lt])) (by norm_num [abs_of_pos])
  have hd : div (fin (-1 / 2097152)) (fin 2) = round32 (-1 / 2097152 / 2) := by simp [div]
  rw [hd, h]
  norm_num

theorem excess_div_three :
    div (fin (-1 / 2097152)) (fin 3) = fin (-11184811 / 70368744177664) := by
  have h := round32_eq_fin (-1 / 2097152 / 3) (-23) (-11184811)
    (by norm_num [abs_of_neg]) (by norm_num [abs_of_neg]) (by norm_num)
    (roundTiesEven_of_near _ _ (by norm_num [abs_lt])) (by norm_num [abs_of_pos])
  have hd : div (fin (-1 / 2097152)) (fin 3) = round32 (-1 / 2097152 / 3) := by simp [div]
  rw [hd, h]
  norm_num

theorem threshold_add_half_excess :
    add (fin (-12792627 / 2097152)) (fin (-1 / 4194304)) = fin (-12792628 / 2097152) := by
  have h := round32_eq_fin (-12792627 / 2097152 + -1 / 4194304) 2 (-12792628)
    (by norm_num [abs_of_neg]) (by norm_num [abs_of_neg]) (by norm_num)
    (roundTiesEven_tie_even _ _ (by norm_num) (by norm_num)) (by norm_num [abs_of_pos])
  show round32 (-12792627 / 2097152 + -1 / 4194304) = _
  rw [h]
  norm_num

theorem threshold_add_third_excess :
    add (fin (-12792627 / 2097152)) (fin (-11184811 / 70368744177664))
      = fin (-12792627 / 2097152) := by
  have h := round32_eq_fin (-12792627 / 2097152 + -11184811 / 70368744177664) 2 (-12792627)
    (by norm_num [abs_of_neg]) (by norm_num [abs_of_neg]) (by norm_num)
    (roundTiesEven_of_near _ _ (by norm_num [abs_lt])) (by norm_num [abs_of_pos])
  show round32 (-12792627 / 2097152 + -11184811 / 70368744177664) = _
  rw [h]
  norm_num

theorem twentieth_mul_lowered :
    mul (round32 0.05) (fin (-12792628 / 2097152)) = fin (-10234103 / 33554432) := by
  rw [round32_twentieth]
  have h := round32_eq_fin (13421773 / 268435456 * (-12792628 / 2097152)) (-2) (-10234103)
    (by norm_num [abs_of_neg]) (by norm_num [abs_of_neg]) (by norm_num)
    (roundTiesEven_of_near _ _ (by norm_num [abs_lt])) (by norm_num [abs_of_pos])
  show round32 (13421773 / 268435456 * (-12792628 / 2097152)) = _
  rw [h]
  norm_num

end F32

/-! ## Compressor in binary32 -/

namespace Compressor32

/-! ### The control loop in binary32 -/

theorem mainLoop_cons32 (powf : F32 → F32 → F32) (k : Int) (ks : List Int) (s : State) :
    mainLoop powf (k :: ks) s = mainLoop powf ks (mainLoopBody powf k s) := rfl

/-- One iteration that reads the key `t` (code 116). -/
theorem mainLoopBody_t32 (powf : F32 → F32 → F32) (s : State) :
    (mainLoopBody powf 116 s).compressorThreshold_dB
      = F32.add s.compressorThreshold_dB (F32.fin 1) ∧
    (mainLoopBody powf 116 s).makeupGain_dB = s.makeupGain_dB ∧
    (F32.lt s.compressorRatio (F32.fin 1) = false →
      (mainLoopBody powf 116 s).compressorRatio = s.compressorRatio) := by
  simp only [mainLoopBody, keySwitch, ERR]
  norm_num
  refine ⟨?_, ?_, ?_⟩
  · split_ifs <;> rfl
  · split_ifs <;> rfl
  · intro h
    simp [h]

/-- One iteration in which `getch()` finds no key. -/
theorem mainLoopBody_ERR32 (powf : F32 → F32 → F32) (s : State) :
    (mainLoopBody powf ERR s).compressorThreshold_dB = s.compressorThreshold_dB ∧
    (mainLoopBody powf ERR s).makeupGain_dB = s.makeupGain_dB ∧
    (F32.lt s.compressorRatio (F32.fin 1) = false →
      (mainLoopBody powf ERR s).compressorRatio = s.compressorRatio) := by
  simp only [mainLoopBody]
  norm_num
  refine ⟨?_, ?_, ?_⟩
  · split_ifs <;> rfl
  · split_ifs <;> rfl
  · intro h
    simp [h]

/-- One iteration that reads the key `T` (code 84). -/
theorem mainLoopBody_T32 (powf : F32 → F32 → F32) (s : State) :
    (mainLoopBody powf 84 s).compressorThreshold_dB
      = F32.add s.compressorThreshold_dB (F32.round32 0.1) := by
  simp only [mainLoopBody, keySwitch, ERR]
  norm_num
  split_ifs <;> rfl

/-- One iteration that reads the key `g` (code 103). -/
theorem mainLoopBody_g32 (powf : F32 → F32 → F32) (s : State) :
    (mainLoopBody powf 103 s).compressorThreshold_dB
      = F32.sub s.compressorThreshold_dB (F32.fin 1) := by
  simp only [mainLoopBody, keySwitch, ERR]
  norm_num
  split_ifs <;> rfl

/-- One iteration that reads the key `G` (code 71). -/
theorem mainLoopBody_G32 (powf : F32 → F32 → F32) (s : State) :
    (mainLoopBody powf 71 s).compressorThreshold_dB
      = F32.sub s.compressorThreshold_dB (F32.round32 0.1) := by
  simp only [mainLoopBody, keySwitch, ERR]
  norm_num
  split_ifs <;> rfl

theorem sub_one_intCast (k : ℤ) (h : |k - 1| ≤ 2 ^ 24) :
    F32.sub (F32.fin k) (F32.fin 1) = F32.fin ((k - 1 : ℤ) : ℚ) := by
  have := F32.add_intCast k (-1) (by simpa [sub_eq_add_neg] using h)
  simpa [F32.sub, F32.neg, sub_eq_add_neg] using this

/-- The keys `g` (six times) and `G` from the initial state. -/
theorem mainLoop_keys_g_G32 (powf : F32 → F32 → F32) :
    (mainLoop powf [103, 103, 103, 103, 103, 103, 71] initialState).compressorThreshold_dB
      = F32.fin (-12792627 / 2097152) := by
  simp only [mainLoop_cons32]
  show (mainLoopBody powf 71 _).compressorThreshold_dB = _
  rw [mainLoopBody_G32]
  simp only [mainLoopBody_g32]
  have h0 : initialState.compressorThreshold_dB = F32.fin ((0 : ℤ) : ℚ) := by simp [initialState]
  rw [h0, sub_one_intCast 0 (by norm_num), sub_one_intCast (0 - 1) (by norm_num),
    sub_one_intCast (0 - 1 - 1) (by norm_num), sub_one_intCast (0 - 1 - 1 - 1) (by norm_num),
    sub_one_intCast (0 - 1 - 1 - 1 - 1) (by norm_num),
    sub_one_intCast (0 - 1 - 1 - 1 - 1 - 1) (by norm_num)]
  have := F32.neg_six_sub_tenth
  norm_num at this ⊢
  exact this

theorem powfPiecewise_not_lt_zero (b e : F32) :
    F32.lt (powfPiecewise b e) (F32.fin 0) = false := by
  cases e with
  | nan => rfl
  | inf s => cases s <;> simp [powfPiecewise, F32.lt]
  | fin y =>
    have h0 : (0 : ℚ) ≤ (10 : ℚ) ^ ⌊y⌋ * (1 + 9 * (y - ⌊y⌋)) := by
      have := Int.floor_le y
      have : (0 : ℚ) < (10 : ℚ) ^ ⌊y⌋ := by positivity
      apply mul_nonneg this.le
      linarith
    rcases F32.round32_nonneg _ h0 with h | ⟨r, hr, h⟩
    · show F32.lt (F32.round32 _) _ = false
      rw [h]
      rfl
    · show F32.lt (F32.round32 _) _ = false
      rw [h]
      simp [F32.lt, hr]

/-- The interpolation of `powfPiecewise` is monotone. -/
theorem piecewise_mono {x y : ℚ} (h : x ≤ y) :
    (10 : ℚ) ^ ⌊x⌋ * (1 + 9 * (x - ⌊x⌋)) ≤ (10 : ℚ) ^ ⌊y⌋ * (1 + 9 * (y - ⌊y⌋)) := by
  have hfx := Int.floor_le x
  have hlx := Int.lt_floor_add_one x
  have hfy := Int.floor_le y
  have hxy : ⌊x⌋ ≤ ⌊y⌋ := Int.floor_mono h
  have hpx : (0 : ℚ) < (10 : ℚ) ^ ⌊x⌋ := by positivity
  have hpy : (0 : ℚ) < (10 : ℚ) ^ ⌊y⌋ := by positivity
  rcases lt_or_eq_of_le hxy with hlt | heq
  · have h1 : (10 : ℚ) ^ ⌊x⌋ * (1 + 9 * (x - ⌊x⌋)) ≤ (10 : ℚ) ^ ⌊x⌋ * 10 :=
      mul_le_mul_of_nonneg_left (by linarith) hpx.le
    have h2 : (10 : ℚ) ^ ⌊x⌋ * 10 = (10 : ℚ) ^ (⌊x⌋ + 1) := by
      rw [zpow_add₀ (by norm_num), zpow_one]
    have h3 : (10 : ℚ) ^ (⌊x⌋ + 1) ≤ (10 : ℚ) ^ ⌊y⌋ :=
      zpow_le_zpow_right₀ (by norm_num) (by omega)
    have h4 : (10 : ℚ) ^ ⌊y⌋ * 1 ≤ (10 : ℚ) ^ ⌊y⌋ * (1 + 9 * (y - ⌊y⌋)) :=
      mul_le_mul_of_nonneg_left (by linarith) hpy.le
    linarith
  · rw [← heq]
    exact mul_le_mul_of_nonneg_left (by linarith) hpx.le

theorem powfPiecewise_mono (b : F32) (e1 e2 : F32) (h : F32.le e1 e2) :
    F32.lt (powfPiecewise b e2) (powfPiecewise b e1) = false := by
  obtain ⟨h1, h2, hlt⟩ := h
  cases e1 with
  | nan => exact absurd rfl h1
  | inf s =>
    cases s
    · cases e2 with
      | nan => exact absurd rfl h2
      | inf u => cases u <;> simp_all [F32.lt, powfPiecewise]
      | fin y => simp [F32.lt] at hlt
    · exact powfPiecewise_not_lt_zero b e2
  | fin x =>
    cases e2 with
    | nan => exact absurd rfl h2
    | inf u =>
      cases u
      · exact F32.inf_false_lt _
      · simp [F32.lt] at hlt
    | fin y =>
      have hxy : x ≤ y := by simpa [F32.lt] using hlt
      exact (F32.round32_mono (piecewise_mono hxy)).2.2

theorem log10fPiecewise_one : log10fPiecewise (F32.fin 1) = F32.fin 0 := by
  have h : log10fPiecewise (F32.fin 1)
      = F32.round32 (Int.log 10 (1 : ℚ) + ((1 : ℚ) / 10 ^ Int.log 10 (1 : ℚ) - 1) / 9) := by
    simp [log10fPiecewise]
  rw [h, Int.log_one_right]
  norm_num
  exact F32.round32_zero

theorem scenario2_threshold :
    (scenario2 powfPiecewise).compressorThreshold = F32.fin (13421773 / 134217728) := by
  show powfPiecewise (F32.fin 10) (F32.mul (F32.round32 0.05) (F32.fin (-20))) = _
  rw [F32.twentieth_mul_neg_20]
  show F32.round32 ((10 : ℚ) ^ ⌊(-1 : ℚ)⌋ * (1 + 9 * ((-1 : ℚ) - ⌊(-1 : ℚ)⌋))) = _
  have hf : ⌊(-1 : ℚ)⌋ = -1 := by
    rw [Int.floor_eq_iff]
    norm_num
  rw [hf]
  have := F32.round32_tenth
  norm_num at this ⊢
  exact this

/-- C5, as stated, fails in binary32. The keys `g` (six times) and `G` leave the
threshold at -12792627/2^21 dB (the binary32 result of -6 - 0.1f). For a `powf` and a
`log10f` with the correctly rounded values `powf(10, -10234102/2^25) = 16624549/2^25`,
`log10f(16624550/2^25) = -10234102/2^25` and `powf(10, -10234103/2^25) =
16624548/2^25`, the threshold coefficient is 16624549/2^25, the next binary32 number
16624550/2^25 is above it, and `compress` of that magnitude is 16624548/2^25 under
ratio 2 but 16624549/2^25 under ratio 3: the larger ratio gives the larger value. -/
theorem compress_not_antitone_counterexample :
    (∀ powf : F32 → F32 → F32,
      (mainLoop powf [103, 103, 103, 103, 103, 103, 71] initialState).compressorThreshold_dB
        = F32.fin (-12792627 / 2097152)) ∧
    (∀ (powf : F32 → F32 → F32) (log10f : F32 → F32),
      powf (F32.fin 10) (F32.fin (-10234102 / 33554432)) = F32.fin (16624549 / 33554432) →
      log10f (F32.fin (16624550 / 33554432)) = F32.fin (-10234102 / 33554432) →
      powf (F32.fin 10) (F32.fin (-10234103 / 33554432)) = F32.fin (16624548 / 33554432) →
      (nearThreshold powf (F32.fin 2)).compressorThreshold
          = linear_from_dB powf (nearThreshold powf (F32.fin 2)).compressorThreshold_dB ∧
        (nearThreshold powf (F32.fin 2)).compressorThreshold = F32.fin (16624549 / 33554432) ∧
        F32.gt (F32.fin (16624550 / 33554432))
          (nearThreshold powf (F32.fin 2)).compressorThreshold = true ∧
        compress powf log10f (nearThreshold powf (F32.fin 2)) (F32.fin (16624550 / 33554432))
          = F32.fin (16624548 / 33554432) ∧
        compress powf log10f (nearThreshold powf (F32.fin 3)) (F32.fin (16624550 / 33554432))
          = F32.fin (16624549 / 33554432)) ∧
    (1 : ℚ) ≤ 2 ∧ (2 : ℚ) ≤ 3 ∧
    ¬ ((16624549 / 33554432 : ℚ) ≤ 16624548 / 33554432) := by
  refine ⟨mainLoop_keys_g_G32, ?_, by norm_num, by norm_num, by norm_num⟩
  intro powf log10f h1 h2 h3
  have hthr : ∀ r : F32, (nearThreshold powf r).compressorThreshold
      = F32.fin (16624549 / 33554432) := by
    intro r
    show powf (F32.fin 10) (F32.mul (F32.round32 0.05) (F32.fin (-12792627 / 2097152))) = _
    rw [F32.twentieth_mul_threshold, h1]
  have hgt : ∀ r : F32, F32.gt (F32.fin (16624550 / 33554432))
      (nearThreshold powf r).compressorThreshold = true := by
    intro r
    rw [hthr r]
    simp [F32.gt, F32.lt]
    norm_num
  have hdB : dB_from_linear log10f (F32.fin (16624550 / 33554432))
      = F32.fin (-12792628 / 2097152) := by
    unfold dB_from_linear
    rw [h2, F32.twenty_mul_level]
  refine ⟨rfl, hthr _, hgt _, ?_, ?_⟩
  · unfold compress
    rw [if_pos (hgt _)]
    simp only
    rw [hdB]
    show linear_from_dB powf
      (F32.add (F32.fin (-12792627 / 2097152))
        (F32.div (F32.sub (F32.fin (-12792628 / 2097152)) (F32.fin (-12792627 / 2097152)))
          (F32.fin 2))) = _
    rw [F32.level_sub_threshold, F32.excess_div_two, F32.threshold_add_half_excess]
    unfold linear_from_dB
    rw [F32.twentieth_mul_lowered, h3]
  · unfold compress
    rw [if_pos (hgt _)]
    simp only
    rw [hdB]
    show linear_from_dB powf
      (F32.add (F32.fin (-12792627 / 2097152))
        (F32.div (F32.sub (F32.fin (-12792628 / 2097152)) (F32.fin (-12792627 / 2097152)))
          (F32.fin 3))) = _
    rw [F32.level_sub_threshold, F32.excess_div_three, F32.threshold_add_third_excess]
    unfold linear_from_dB
    rw [F32.twentieth_mul_threshold, h1]

/-- C5, amended: with a `powf` that is non-decreasing in its exponent, a magnitude `a`
above the threshold coefficient whose level `dB_from_linear a`, computed in binary32,
is not below `compressorThreshold_dB`, and ratios `1 ≤ r1 ≤ r2`, `compress a` under
ratio `r1` is not below `compress a` under ratio `r2`. -/
theorem compress_antitone_in_ratio_binary32 (powf : F32 → F32 → F32) (log10f : F32 → F32)
    (hmono : ∀ e1 e2 : F32, F32.le e1 e2 →
      F32.lt (powf (F32.fin 10) e2) (powf (F32.fin 10) e1) = false)
    (s : State) (a : F32) (T D r1 r2 : ℚ)
    (hT : s.compressorThreshold_dB = F32.fin T) (hD : dB_from_linear log10f a = F32.fin D)
    (hTD : T ≤ D) (ha : F32.gt a s.compressorThreshold = true)
    (h1 : 1 ≤ r1) (h12 : r1 ≤ r2) :
    F32.lt (compress powf log10f { s with compressorRatio := F32.fin r1 } a)
      (compress powf log10f { s with compressorRatio := F32.fin r2 } a) = false := by
  have hx : F32.sub (F32.fin D) (F32.fin T) = F32.round32 (D + -T) := rfl
  have hx0 : F32.lt (F32.sub (F32.fin D) (F32.fin T)) (F32.fin 0) = false := by
    rw [hx]
    rcases F32.round32_nonneg (D + -T) (by linarith) with h | ⟨r, hr, h⟩
    · rw [h]; rfl
    · rw [h]; simp [F32.lt, hr]
  have hxn : F32.sub (F32.fin D) (F32.fin T) ≠ F32.nan := by
    rw [hx]
    exact F32.round32_ne_nan _
  have hdiv := F32.div_le_div_of_ratio_le _ hx0 hxn h1 h12
  have hadd := F32.add_mono_right T hdiv
  have hc : (0 : ℚ) < 13421773 / 268435456 := by norm_num
  have hmul := F32.mul_mono_right hc hadd
  have := hmono _ _ hmul
  unfold compress
  simp only [if_pos ha, hT, hD]
  unfold linear_from_dB
  rw [F32.round32_twentieth]
  exact this

/-- Witness of amended C5: scenario 2 (threshold -20 dB) with the stand-ins
`powfPiecewise` and `log10fPiecewise`, magnitude 1 (0 dB), ratios 1 and 4. -/
theorem compress_antitone_in_ratio_binary32_witness :
    (∀ e1 e2 : F32, F32.le e1 e2 →
      F32.lt (powfPiecewise (F32.fin 10) e2) (powfPiecewise (F32.fin 10) e1) = false) ∧
    (scenario2 powfPiecewise).compressorThreshold_dB = F32.fin (-20) ∧
    dB_from_linear log10fPiecewise (F32.fin 1) = F32.fin 0 ∧
    F32.gt (F32.fin 1) (scenario2 powfPiecewise).compressorThreshold = true ∧
    F32.lt
      (compress powfPiecewise log10fPiecewise
        { scenario2 powfPiecewise with compressorRatio := F32.fin 1 } (F32.fin 1))
      (compress powfPiecewise log10fPiecewise
        { scenario2 powfPiecewise with compressorRatio := F32.fin 4 } (F32.fin 1)) = false := by
  have hD : dB_from_linear log10fPiecewise (F32.fin 1) = F32.fin 0 := by
    unfold dB_from_linear
    rw [log10fPiecewise_one]
    show F32.round32 (20 * 0) = _
    rw [mul_zero, F32.round32_zero]
  have hgt : F32.gt (F32.fin 1) (scenario2 powfPiecewise).compressorThreshold = true := by
    rw [scenario2_threshold]
    simp [F32.gt, F32.lt]
    norm_num
  exact ⟨powfPiecewise_mono (F32.fin 10), rfl, hD, hgt,
    compress_antitone_in_ratio_binary32 powfPiecewise log10fPiecewise
      (powfPiecewise_mono (F32.fin 10)) (scenario2 powfPiecewise) (F32.fin 1) (-20) 0 1 4 rfl hD
      (by norm_num) hgt (le_refl 1) (by norm_num)⟩

/-- C8, as stated, fails in binary32. From a threshold of 2^24 dB one key `t` leaves the
value unchanged, since 2^24 + 1 is not a binary32 number and rounds back to 2^24. And
from the initial state the key `T` gives the binary32 nearest to 0.1, after which one
key `t` gives 9227469/2^23, which is not that value plus 1. -/
theorem key_t_not_unit_step_counterexample :
    (∀ powf : F32 → F32 → F32,
      (mainLoop powf [116]
        { initialState with compressorThreshold_dB := F32.fin 16777216 }).compressorThreshold_dB
        = F32.fin 16777216) ∧
    (∀ powf : F32 → F32 → F32,
      (mainLoop powf [84] initialState).compressorThreshold_dB
          = F32.fin (13421773 / 134217728) ∧
        (mainLoop powf [84, 116] initialState).compressorThreshold_dB
          = F32.fin (9227469 / 8388608)) ∧
    (16777216 : ℚ) ≠ 16777216 + 1 ∧
    (9227469 / 8388608 : ℚ) ≠ 13421773 / 134217728 + 1 := by
  refine ⟨fun powf => ?_, fun powf => ⟨?_, ?_⟩, by norm_num, by norm_num⟩
  · show (mainLoopBody powf 116 _).compressorThreshold_dB = _
    rw [(mainLoopBody_t32 powf _).1]
    exact F32.two_pow_24_add_one
  · show (mainLoopBody powf 84 _).compressorThreshold_dB = _
    rw [mainLoopBody_T32]
    exact F32.zero_add_tenth
  · show (mainLoopBody powf 116 (mainLoopBody powf 84 _)).compressorThreshold_dB = _
    rw [(mainLoopBody_t32 powf _).1, mainLoopBody_T32]
    show F32.add (F32.add (F32.fin 0) (F32.round32 0.1)) (F32.fin 1) = _
    rw [F32.zero_add_tenth, F32.tenth_add_one]

/-- C8, amended: when `compressorThreshold_dB` starts at `v` and every sum `v + j`,
`1 ≤ j ≤ n`, is a binary32 number (it rounds to itself, as every integer within
`[-2^24, 2^24]` does), any sequence of iterations in which `getch()` returns the key
`t` (code 116) `n` times and `ERR` otherwise ends with `compressorThreshold_dB = v + n`,
with `makeupGain_dB` unchanged, and with `compressorRatio` unchanged when it was not
below 1. -/
theorem key_t_unit_step_binary32 (powf : F32 → F32 → F32) (keystrokes : List Int) (s : State)
    (v : ℚ) (hk : ∀ key ∈ keystrokes, key = 116 ∨ key = ERR)
    (hs : s.compressorThreshold_dB = F32.fin v)
    (hrep : ∀ j : ℕ, 1 ≤ j → j ≤ keystrokes.count 116 →
      F32.round32 (v + j) = F32.fin (v + j)) :
    (mainLoop powf keystrokes s).compressorThreshold_dB
      = F32.fin (v + (keystrokes.count 116 : ℕ)) ∧
    (mainLoop powf keystrokes s).makeupGain_dB = s.makeupGain_dB ∧
    (F32.lt s.compressorRatio (F32.fin 1) = false →
      (mainLoop powf keystrokes s).compressorRatio = s.compressorRatio) := by
  induction keystrokes generalizing s v with
  | nil =>
    refine ⟨?_, rfl, fun _ => rfl⟩
    show s.compressorThreshold_dB = _
    rw [hs]
    simp
  | cons key ks ih =>
    have hks : ∀ key' ∈ ks, key' = 116 ∨ key' = ERR :=
      fun key' h => hk key' (List.mem_cons_of_mem _ h)
    rw [mainLoop_cons32]
    rcases hk key (List.mem_cons_self _ _) with rfl | rfl
    · obtain ⟨b1, b2, b3⟩ := mainLoopBody_t32 powf s
      rw [List.count_cons_self] at hrep ⊢
      have ha : (mainLoopBody powf 116 s).compressorThreshold_dB = F32.fin (v + 1) := by
        rw [b1, hs]
        have := hrep 1 (le_refl 1) (by omega)
        show F32.round32 (v + 1) = _
        simpa using this
      have hrep' : ∀ j : ℕ, 1 ≤ j → j ≤ List.count 116 ks →
          F32.round32 (v + 1 + j) = F32.fin (v + 1 + j) := by
        intro j hj1 hj
        have := hrep (j + 1) (by omega) (by omega)
        have e : v + ((j + 1 : ℕ) : ℚ) = v + 1 + j := by push_cast; ring
        rw [e] at this
        exact this
      obtain ⟨i1, i2, i3⟩ := ih (mainLoopBody powf 116 s) (v + 1) hks ha hrep'
      refine ⟨?_, by rw [i2, b2], fun h => ?_⟩
      · rw [i1]
        congr 1
        push_cast
        ring
      · rw [i3 (by rw [b3 h]; exact h), b3 h]
    · obtain ⟨b1, b2, b3⟩ := mainLoopBody_ERR32 powf s
      rw [List.count_cons_of_ne (by decide)] at hrep ⊢
      obtain ⟨i1, i2, i3⟩ := ih (mainLoopBody powf ERR s) v hks (by rw [b1, hs]) hrep
      refine ⟨i1, by rw [i2, b2], fun h => ?_⟩
      rw [i3 (by rw [b3 h]; exact h), b3 h]

/-- Witness of amended C8: ten `t` keys with two key-less iterations in between, from
the initial state: the sums 1, ..., 10 are binary32 numbers and the threshold goes from
0 dB to 10 dB. -/
theorem key_t_unit_step_binary32_witness :
    (∀ key ∈ [116, ERR, 116, 116, 116, ERR, 116, 116, 116, 116, 116, 116],
      key = 116 ∨ key = ERR) ∧
    initialState.compressorThreshold_dB = F32.fin 0 ∧
    (∀ j : ℕ, 1 ≤ j →
      j ≤ List.count (116 : Int) [116, ERR, 116, 116, 116, ERR, 116, 116, 116, 116, 116, 116] →
      F32.round32 (0 + j) = F32.fin (0 + j)) ∧
    F32.lt initialState.compressorRatio (F32.fin 1) = false ∧
    ∀ powf : F32 → F32 → F32,
      (mainLoop powf [116, ERR, 116, 116, 116, ERR, 116, 116, 116, 116, 116, 116]
        initialState).compressorThreshold_dB = F32.fin 10 ∧
      (mainLoop powf [116, ERR, 116, 116, 116, ERR, 116, 116, 116, 116, 116, 116]
        initialState).makeupGain_dB = F32.fin 0 ∧
      (mainLoop powf [116, ERR, 116, 116, 116, ERR, 116, 116, 116, 116, 116, 116]
        initialState).compressorRatio = F32.fin 1 := by
  have hk : ∀ key ∈ [116, ERR, 116, 116, 116, ERR, 116, 116, 116, 116, 116, 116],
      key = 116 ∨ key = ERR := by decide
  have hc : List.count (116 : Int)
      [116, ERR, 116, 116, 116, ERR, 116, 116, 116, 116, 116, 116] = 10 := by decide
  have hrep : ∀ j : ℕ, 1 ≤ j →
      j ≤ List.count (116 : Int)
        [116, ERR, 116, 116, 116, ERR, 116, 116, 116, 116, 116, 116] →
      F32.round32 (0 + j) = F32.fin (0 + j) := by
    intro j _ hj
    rw [hc] at hj
    have := F32.round32_intCast (j : ℤ) (by
      rw [abs_of_nonneg (by positivity)]
      have : (j : ℤ) ≤ 10 := by exact_mod_cast hj
      linarith)
    simpa using this
  have hr : F32.lt initialState.compressorRatio (F32.fin 1) = false := by
    simp [initialState, F32.lt]
  refine ⟨hk, rfl, hrep, hr, fun powf => ?_⟩
  obtain ⟨h1, h2, h3⟩ := key_t_unit_step_binary32 powf _ initialState 0 hk rfl hrep
  refine ⟨?_, h2, h3 hr⟩
  rw [h1, hc]
  norm_num

end Compressor32

/-! ## Simple gain -/

namespace SimpleGain

/-- C4: in the initial state of `simple_gain.c` (ratio 1, threshold coefficient 0.1,
makeup gain 1) the sample 0.5 is at or above the threshold and `process` writes 0.9,
which is not `0.5 * linearmakeupgain`. -/
theorem ratio_one_slope_not_identity :
    (initialState : State ℚ).compressorratio = 1 ∧
    ¬ ((0.5 : ℚ) < (initialState : State ℚ).linearcompressorthreshold) ∧
    (process (initialState : State ℚ) [0.5]).2 = [0.9] ∧
    (0.9 : ℚ) ≠ 0.5 * (initialState : State ℚ).linearmakeupgain := by
  refine ⟨rfl, ?_, ?_, ?_⟩
  · norm_num [initialState]
  · norm_num [process, processSample, initialState]
  · norm_num [initialState]

/-- C7: one iteration of the control loop of `simple_gain.c` that reads the key `f`
(code 102) in the initial state ends with `compressorratio = 0`, which is below 1. -/
theorem ratio_not_floored :
    (mainLoop Real.rpow [102] (initialState : State ℝ)).compressorratio = 0 ∧
    ¬ (1 ≤ (mainLoop Real.rpow [102] (initialState : State ℝ)).compressorratio) := by
  have h : (mainLoop Real.rpow [102] (initialState : State ℝ)).compressorratio = 0 := by
    norm_num [mainLoop, mainLoopBody, keySwitch, initialState, ERR, KEY_UP, KEY_DOWN,
      KEY_LEFT, KEY_RIGHT]
  exact ⟨h, by rw [h]; norm_num⟩

end SimpleGain
